import Mathlib

/-!
Verification of the FAEST parameter-binding layer (`src/parameter.rs`).

Byte buffers are modelled as `List Nat` (each entry one byte; the bit
operations used by the code are position-wise, so no mod-256 normalisation
is needed for the decoded challenge bits, which are `x &&& 1`).

The repetition schedules (`TauParameters` impls), the OWF parameter records
(`OWFParameters` impls) and the FAEST configurations are embedded as concrete
records.  The external collaborators (the AES/Rijndael block ciphers and the
witness-extension circuits, which live outside this crate's parameter module)
are abstracted as function arguments, exactly as the trait methods delegate
to them.
-/

/-- Extraction of bit `j` from a bit-packed byte buffer, as in the source:
`(chal[j / 8] >> (j % 8)) & 1`.  Absent positions read as 0. -/
def chalBit (chal : List Nat) (j : Nat) : Nat :=
  (chal.getD (j / 8) 0 >>> (j % 8)) &&& 1

/-- Numeric fields of a `TauParameters` implementation: `Tau`, `K0`, `K1`,
`Tau0`, `Tau1`. -/
structure TauParams where
  tau : Nat
  k0 : Nat
  k1 : Nat
  tau0 : Nat
  tau1 : Nat
deriving DecidableEq, Repr

/-- Embedding of `TauParameters::decode_challenge_as_iter` (and hence of
`decode_challenge`, which just collects it): compute the inclusive bounds
`(lo, hi)` by the two-region split and map the bit extraction over
`lo..=hi`.  A Rust inclusive range `lo..=hi` yields `hi + 1 - lo` items
(none when `hi < lo`), which is `List.range' lo (hi + 1 - lo)` with
truncated subtraction. -/
def TauParams.decode_challenge (T : TauParams) (chal : List Nat) (i : Nat) : List Nat :=
  let lohi : Nat × Nat :=
    if i < T.tau0 then
      (i * T.k0, (i + 1) * T.k0 - 1)
    else
      (T.tau0 * T.k0 + (i - T.tau0) * T.k1,
       T.tau0 * T.k0 + (i - T.tau0 + 1) * T.k1 - 1)
  (List.range' lohi.1 (lohi.2 + 1 - lohi.1)).map (fun j => chalBit chal j)

/-- Embedding of `TauParameters::convert_index`. -/
def TauParams.convert_index (T : TauParams) (i : Nat) : Nat :=
  if i < T.tau0 then
    T.k0 * i
  else
    T.tau0 * T.k0 + T.k1 * (i - T.tau0)

/-- Embedding of `TauParameters::convert_index_and_size`. -/
def TauParams.convert_index_and_size (T : TauParams) (i : Nat) : Nat × Nat :=
  if i < T.tau0 then
    (T.k0 * i, T.k0)
  else
    (T.tau0 * T.k0 + T.k1 * (i - T.tau0), T.k1)

/-- Specification-side rendering of `decode_challenge` (from the spec's
words, for the refinement claim): the slice assigned to repetition `i`
starts at offset `i·k0` (respectively `τ0·k0 + (i−τ0)·k1`), has width `k0`
(respectively `k1`), and bit `j` is `(chal[j/8] >> (j%8)) & 1`. -/
def TauParams.decodeChallengeSpec (T : TauParams) (chal : List Nat) (i : Nat) : List Nat :=
  let off := if i < T.tau0 then i * T.k0 else T.tau0 * T.k0 + (i - T.tau0) * T.k1
  let w := if i < T.tau0 then T.k0 else T.k1
  (List.range w).map (fun t => chalBit chal (off + t))

/-- `Tau128Small`: τ=11, k0=12, k1=11, τ0=7, τ1=4. -/
def Tau128Small : TauParams := ⟨11, 12, 11, 7, 4⟩

/-- `Tau128Fast`: τ=16, k0=8, k1=8, τ0=8, τ1=8. -/
def Tau128Fast : TauParams := ⟨16, 8, 8, 8, 8⟩

/-- `Tau192Small`: τ=16, k0=12, k1=12, τ0=8, τ1=8. -/
def Tau192Small : TauParams := ⟨16, 12, 12, 8, 8⟩

/-- `Tau192Fast`: τ=24, k0=8, k1=8, τ0=12, τ1=12. -/
def Tau192Fast : TauParams := ⟨24, 8, 8, 12, 12⟩

/-- `Tau256Small`: τ=22, k0=12, k1=11, τ0=14, τ1=8. -/
def Tau256Small : TauParams := ⟨22, 12, 11, 14, 8⟩

/-- `Tau256Fast`: τ=32, k0=8, k1=8, τ0=16, τ1=16. -/
def Tau256Fast : TauParams := ⟨32, 8, 8, 16, 16⟩

/-- The six repetition schedules, each paired with the security parameter λ
(in bits) of the OWF parameter sets it is combined with in the twelve FAEST
configurations. -/
def tauSchedules : List (TauParams × Nat) :=
  [(Tau128Small, 128), (Tau128Fast, 128),
   (Tau192Small, 192), (Tau192Fast, 192),
   (Tau256Small, 256), (Tau256Fast, 256)]

/-- Numeric constants of an `OWFParameters` implementation (the type-level
constants that the claims refer to): `LAMBDA`, `LAMBDABYTES`, `InputSize`,
`L`, `LBYTES`, `R`, `SK`, `PK`. -/
structure OWFParams where
  lambda : Nat
  lambdaBytes : Nat
  inputSize : Nat
  l : Nat
  lbytes : Nat
  r : Nat
  sk : Nat
  pk : Nat
deriving DecidableEq, Repr

/-- `OWF128`: λ=128, InputSize=16, L=1024+576, LBYTES=200, R=10, SK=32, PK=32. -/
def OWF128 : OWFParams := ⟨128, 16, 16, 1024 + 576, 200, 10, 32, 32⟩

/-- `OWF192`: λ=192, InputSize=32, L=4096−832, LBYTES=408, R=12, SK=56, PK=64. -/
def OWF192 : OWFParams := ⟨192, 24, 32, 4096 - 832, 408, 12, 56, 64⟩

/-- `OWF256`: λ=256, InputSize=32, L=4096−96, LBYTES=500, R=14, SK=64, PK=64. -/
def OWF256 : OWFParams := ⟨256, 32, 32, 4096 - 96, 500, 14, 64, 64⟩

/-- `OWF128EM`: λ=128, InputSize=16, L=1024+256, LBYTES=160, R=10, SK=32, PK=32. -/
def OWF128EM : OWFParams := ⟨128, 16, 16, 1024 + 256, 160, 10, 32, 32⟩

/-- `OWF192EM`: λ=192, InputSize=24, L=2048+256, LBYTES=288, R=12, SK=48, PK=48. -/
def OWF192EM : OWFParams := ⟨192, 24, 24, 2048 + 256, 288, 12, 48, 48⟩

/-- `OWF256EM`: λ=256, InputSize=32, L=4096−512, LBYTES=448, R=14, SK=64, PK=64. -/
def OWF256EM : OWFParams := ⟨256, 32, 32, 4096 - 512, 448, 14, 64, 64⟩

/-- The six OWF parameter sets. -/
def owfParamSets : List OWFParams :=
  [OWF128, OWF192, OWF256, OWF128EM, OWF192EM, OWF256EM]

/-- Numeric content of a `FAESTParameters` implementation: the chosen OWF
parameter set, the chosen repetition schedule and the signature size. -/
structure FAESTParams where
  owf : OWFParams
  tau : TauParams
  signatureSize : Nat
deriving DecidableEq, Repr

/-- `FAEST128sParameters`. -/
def FAEST128sParameters : FAESTParams := ⟨OWF128, Tau128Small, 142 + (256 + (512 + 4096))⟩

/-- `FAEST128fParameters`. -/
def FAEST128fParameters : FAESTParams := ⟨OWF128, Tau128Fast, 192 + (2048 + 4096)⟩

/-- `FAEST192sParameters`. -/
def FAEST192sParameters : FAESTParams := ⟨OWF192, Tau192Small, 200 + (256 + (8192 + 4096))⟩

/-- `FAEST192fParameters`. -/
def FAEST192fParameters : FAESTParams := ⟨OWF192, Tau192Fast, 152 + (256 + 16384)⟩

/-- `FAEST256sParameters`. -/
def FAEST256sParameters : FAESTParams := ⟨OWF256, Tau256Small, 596 + (1024 + (4096 + 16384))⟩

/-- `FAEST256fParameters`. -/
def FAEST256fParameters : FAESTParams := ⟨OWF256, Tau256Fast, 752 + (1024 + (2048 + (8192 + 16384)))⟩

/-- `FAESTEM128sParameters`. -/
def FAESTEM128sParameters : FAESTParams := ⟨OWF128EM, Tau128Small, 470 + 4096⟩

/-- `FAESTEM128fParameters`. -/
def FAESTEM128fParameters : FAESTParams := ⟨OWF128EM, Tau128Fast, 576 + (1024 + 4096)⟩

/-- `FAESTEM192sParameters`. -/
def FAESTEM192sParameters : FAESTParams := ⟨OWF192EM, Tau192Small, 584 + (2048 + 8192)⟩

/-- `FAESTEM192fParameters`. -/
def FAESTEM192fParameters : FAESTParams := ⟨OWF192EM, Tau192Fast, 600 + (1024 + (4096 + 8192))⟩

/-- `FAESTEM256sParameters`. -/
def FAESTEM256sParameters : FAESTParams := ⟨OWF256EM, Tau256Small, 476 + (4096 + 16384)⟩

/-- `FAESTEM256fParameters`. -/
def FAESTEM256fParameters : FAESTParams := ⟨OWF256EM, Tau256Fast, 112 + (2048 + (8192 + 16384))⟩

/-- The twelve FAEST configurations. -/
def faestConfigs : List FAESTParams :=
  [FAEST128sParameters, FAEST128fParameters,
   FAEST192sParameters, FAEST192fParameters,
   FAEST256sParameters, FAEST256fParameters,
   FAESTEM128sParameters, FAESTEM128fParameters,
   FAESTEM192sParameters, FAESTEM192fParameters,
   FAESTEM256sParameters, FAESTEM256fParameters]

/-- `PublicKey`: circuit input bytes and circuit output bytes. -/
structure PKey where
  owf_input : List Nat
  owf_output : List Nat
deriving DecidableEq, Repr

/-- `SecretKey`: cipher key bytes and the owning public key. -/
structure SKey where
  owf_key : List Nat
  pk : PKey
deriving DecidableEq, Repr

/-- Abstraction of one `OWFParameters` trait instantiation as consumed by
`keygen_with_rng` and `witness`: the `InputSize` and `LAMBDABYTES` constants
together with the two delegated operations.  `evaluate_owf` and
`extendwitness` delegate to the cipher-circuit collaborators
(`aes_extendedwitness` / `em_extendedwitness` etc.), which live outside the
parameter module, so they are abstract here. -/
structure OWFInstance where
  inputSize : Nat
  lambdaBytes : Nat
  evaluate_owf : List Nat → List Nat → List Nat
  extendwitness : List Nat → List Nat → Option (List Nat)

/-- Body of one iteration of the `keygen_with_rng` loop, applied to the freshly
sampled secret-key buffer `sk` (of length `SK = InputSize + LAMBDABYTES`):
split `sk` into `owf_input = sk[..InputSize]` and `owf_key = sk[InputSize..]`;
if witness extension fails, report `none` (the loop then resamples);
otherwise evaluate the OWF and return the secret key. -/
def keygenAttempt (O : OWFInstance) (sk : List Nat) : Option SKey :=
  let owf_input := sk.take O.inputSize
  let owf_key := sk.drop O.inputSize
  if (O.extendwitness owf_key owf_input).isNone then
    none
  else
    some { owf_key := owf_key,
           pk := { owf_input := owf_input,
                   owf_output := O.evaluate_owf owf_key owf_input } }

/-- The random source is a stream of whole secret-key buffers: `rng n` is the
buffer produced by the single `fill_bytes` call of loop iteration `n`.
`keygenSucceeds` states that some iteration's sample passes witness
extension — the termination condition of the `keygen_with_rng` loop. -/
def keygenSucceeds (O : OWFInstance) (rng : Nat → List Nat) : Prop :=
  ∃ n, (keygenAttempt O (rng n)).isSome = true

/-- Embedding of `OWFParameters::keygen_with_rng`: run the loop body on the
successive samples and return the first success.  The function is total
exactly under the loop's termination condition `keygenSucceeds`. -/
def keygen_with_rng (O : OWFInstance) (rng : Nat → List Nat)
    (h : keygenSucceeds O rng) : SKey :=
  (keygenAttempt O (rng (Nat.find h))).get (Nat.find_spec h)

/-- Embedding of `OWFParameters::witness`, which is
`Self::extendwitness(&sk.owf_key, &sk.pk.owf_input).unwrap()`: the `getD []`
default stands for the panicking error branch of `unwrap`. -/
def OWFInstance.witness (O : OWFInstance) (sk : SKey) : List Nat :=
  (O.extendwitness sk.owf_key sk.pk.owf_input).getD []

/-- Embedding of the standard-cipher `OWF128::evaluate_owf`: a single
16-byte block encryption of `input` under `key`.  The block cipher
(`Aes128Enc`, 10 rounds) is external, abstracted as `cipher key block`. -/
def aesSingleBlockEvaluate (cipher : List Nat → List Nat → List Nat)
    (key input : List Nat) : List Nat :=
  cipher key input

/-- Embedding of `OWF192::evaluate_owf` / `OWF256::evaluate_owf`: the
32-byte input is processed as two independent 16-byte blocks under the same
key, `output[..16] = E_key(input[..16])` and `output[16..] = E_key(input[16..])`.
The block cipher (`Aes192Enc` with 12 rounds, `Aes256Enc` with 14 rounds) is
external, abstracted as `cipher key block`. -/
def aesTwoBlockEvaluate (cipher : List Nat → List Nat → List Nat)
    (key input : List Nat) : List Nat :=
  cipher key (input.take 16) ++ cipher key (input.drop 16)

/-- Model of the in-place loop `for idx in 0..InputSize { output[idx] ^= key[idx] }`
of the Even–Mansour `evaluate_owf` implementations: one `List.set` per index. -/
def xorKeyStep (key out : List Nat) (idx : Nat) : List Nat :=
  out.set idx ((out.getD idx 0) ^^^ (key.getD idx 0))

/-- Embedding of the Even–Mansour `evaluate_owf` (`OWF128EM`, `OWF192EM`,
`OWF256EM`): the cipher is keyed by the public `input`
(`Aes128Enc::new(input)` / `Rijndael192::new(input)` / `Rijndael256::new(input)`),
encrypts `key` as the plaintext block into `output`, and then the loop XORs
`key` into the first `InputSize` bytes of `output`.  The block cipher is
external, abstracted as `cipher cipherKey block`. -/
def emEvaluate (inputSize : Nat) (cipher : List Nat → List Nat → List Nat)
    (key input : List Nat) : List Nat :=
  (List.range inputSize).foldl (fun out idx => xorKeyStep key out idx) (cipher input key)

/-- Specification-side rendering of the Even–Mansour evaluation (from the
spec's words, for the refinement claim): the block cipher keyed by the public
input, applied to the key as plaintext block, XORed with the key. -/
def emEvaluateSpec (cipher : List Nat → List Nat → List Nat)
    (key input : List Nat) : List Nat :=
  List.zipWith (fun a b => a ^^^ b) (cipher input key) key

/-- Concrete test fixture: a degenerate OWF instance whose witness extension
always succeeds, used only to instantiate hypotheses of the generic keygen
theorems at a closed input. -/
def owfTest : OWFInstance :=
  { inputSize := 1
    lambdaBytes := 1
    evaluate_owf := fun k _ => k
    extendwitness := fun _ _ => some [] }

/-- Concrete test fixture: a constant random source yielding two-byte buffers. -/
def rngTest : Nat → List Nat := fun _ => [3, 5]

/-- Concrete test fixture: the keygen termination condition holds for
`owfTest` and `rngTest` at the very first sample. -/
def keygenSucceedsTest : keygenSucceeds owfTest rngTest := ⟨0, rfl⟩

/-- Helper: each decoded challenge bit is the bit extraction masked to one bit. -/
theorem chalBit_zero_or_one (chal : List Nat) (j : Nat) :
    chalBit chal j = 0 ∨ chalBit chal j = 1 := by
  unfold chalBit
  rw [Nat.and_one_is_mod]
  omega

/-- Helper: every schedule used by the configurations has positive chunk widths. -/
theorem tauSchedule_k_pos : ∀ p ∈ tauSchedules, 0 < p.1.k0 ∧ 0 < p.1.k1 := by decide

/-- Helper: with positive chunk widths, `decode_challenge` is the bit map over
the segment `[convert_index i, convert_index i + width)` where `width` is the
second component of `convert_index_and_size i`. -/
theorem decode_challenge_eq_range' (T : TauParams) (chal : List Nat) (i : Nat)
    (hk0 : 0 < T.k0) (hk1 : 0 < T.k1) :
    T.decode_challenge chal i =
      (List.range' (T.convert_index i) ((T.convert_index_and_size i).2)).map (chalBit chal) := by
  by_cases h : i < T.tau0
  · have h1 : (i + 1) * T.k0 = i * T.k0 + T.k0 := by ring
    have h2 : (i + 1) * T.k0 - 1 + 1 - i * T.k0 = T.k0 := by omega
    simp only [TauParams.decode_challenge, TauParams.convert_index,
      TauParams.convert_index_and_size, if_pos h]
    rw [h2, Nat.mul_comm T.k0 i]
  · have h1 : (i - T.tau0 + 1) * T.k1 = (i - T.tau0) * T.k1 + T.k1 := by ring
    have h2 : T.tau0 * T.k0 + (i - T.tau0 + 1) * T.k1 - 1 + 1 -
        (T.tau0 * T.k0 + (i - T.tau0) * T.k1) = T.k1 := by omega
    simp only [TauParams.decode_challenge, TauParams.convert_index,
      TauParams.convert_index_and_size, if_neg h]
    rw [h2, Nat.mul_comm T.k1 (i - T.tau0)]

/-- Helper: the width component of `convert_index_and_size` is `k0` below the
split point and `k1` above it. -/
theorem convert_index_and_size_snd (T : TauParams) (i : Nat) :
    (T.convert_index_and_size i).2 = if i < T.tau0 then T.k0 else T.k1 := by
  unfold TauParams.convert_index_and_size
  by_cases h : i < T.tau0 <;> simp [h]

/-- Helper: a bit map over a contiguous segment, re-indexed from its offset. -/
theorem range'_map_chalBit (chal : List Nat) (off w : Nat) :
    (List.range' off w).map (chalBit chal) =
      (List.range w).map (fun t => chalBit chal (off + t)) := by
  rw [List.range'_eq_map_range, List.map_map]
  rfl

/-- C1: for every schedule and every repetition index `i < τ`,
`decode_challenge(chal, i)` returns the bit slice assigned to repetition `i`
as single-bit bytes (each 0 or 1) with bit `j` extracted as
`(chal[j/8] >> (j%8)) & 1`, slice boundaries `[i·k0, (i+1)·k0)` for
`i < τ0` and otherwise offset by `τ0·k0` with index `i − τ0` and width `k1`;
in particular the result has length `k0` when `i < τ0` and `k1` otherwise. -/
theorem decode_challenge_bitslice :
    ∀ p ∈ tauSchedules, ∀ (chal : List Nat) (i : Nat),
      chal.length = p.2 / 8 → i < p.1.tau →
      p.1.decode_challenge chal i = p.1.decodeChallengeSpec chal i
      ∧ (p.1.decode_challenge chal i).length = (if i < p.1.tau0 then p.1.k0 else p.1.k1)
      ∧ (∀ b ∈ p.1.decode_challenge chal i, b = 0 ∨ b = 1) := by
  intro p hp chal i _hlen _hi
  obtain ⟨hk0, hk1⟩ := tauSchedule_k_pos p hp
  have hdec := decode_challenge_eq_range' p.1 chal i hk0 hk1
  refine ⟨?_, ?_, ?_⟩
  · rw [hdec, range'_map_chalBit, convert_index_and_size_snd]
    by_cases h : i < p.1.tau0 <;>
      simp [TauParams.decodeChallengeSpec, TauParams.convert_index, h, Nat.mul_comm]
  · rw [hdec, List.length_map, List.length_range', convert_index_and_size_snd]
  · intro b hb
    rw [hdec] at hb
    simp only [List.mem_map] at hb
    obtain ⟨j, _, rfl⟩ := hb
    exact chalBit_zero_or_one chal j

/-- Witness for C1 at the `Tau128Small` schedule, repetition 0, all-zero challenge. -/
theorem decode_challenge_bitslice_witness :
    Tau128Small.decode_challenge (List.replicate 16 0) 0 =
        Tau128Small.decodeChallengeSpec (List.replicate 16 0) 0
      ∧ (Tau128Small.decode_challenge (List.replicate 16 0) 0).length =
          (if 0 < Tau128Small.tau0 then Tau128Small.k0 else Tau128Small.k1)
      ∧ (∀ b ∈ Tau128Small.decode_challenge (List.replicate 16 0) 0, b = 0 ∨ b = 1) :=
  decode_challenge_bitslice (Tau128Small, 128) (by decide) (List.replicate 16 0) 0
    (by decide) (by decide)

/-- C2: for all six repetition schedules (paired with the λ of their
associated OWF parameter sets) and for all twelve FAEST configurations,
`k0·τ0 + k1·τ1 = λ` and `τ0 + τ1 = τ`. -/
theorem tau_config_invariant :
    (∀ p ∈ tauSchedules,
        p.1.k0 * p.1.tau0 + p.1.k1 * p.1.tau1 = p.2 ∧ p.1.tau0 + p.1.tau1 = p.1.tau)
    ∧ (∀ P ∈ faestConfigs,
        P.tau.k0 * P.tau.tau0 + P.tau.k1 * P.tau.tau1 = P.owf.lambda
        ∧ P.tau.tau0 + P.tau.tau1 = P.tau.tau) := by
  decide

/-- Witness for C2 at the `FAEST128sParameters` configuration. -/
theorem tau_config_invariant_witness :
    FAEST128sParameters.tau.k0 * FAEST128sParameters.tau.tau0 +
        FAEST128sParameters.tau.k1 * FAEST128sParameters.tau.tau1 =
      FAEST128sParameters.owf.lambda :=
  (tau_config_invariant.2 FAEST128sParameters (by decide)).1

/-- Helper: concatenating the decoded slices is the bit map over the
concatenation of the index segments. -/
theorem concat_decode_aux (T : TauParams) (lam : Nat) (chal : List Nat)
    (hk0 : 0 < T.k0) (hk1 : 0 < T.k1)
    (hidx : (List.range T.tau).flatMap
        (fun i => List.range' (T.convert_index i) ((T.convert_index_and_size i).2)) =
      List.range lam) :
    (List.range T.tau).flatMap (T.decode_challenge chal) =
      (List.range lam).map (chalBit chal) := by
  have hdec : T.decode_challenge chal = fun i =>
      (List.range' (T.convert_index i) ((T.convert_index_and_size i).2)).map (chalBit chal) :=
    funext fun i => decode_challenge_eq_range' T chal i hk0 hk1
  rw [hdec, ← List.map_flatMap, hidx]

set_option maxRecDepth 100000 in
/-- C3: for every schedule, the concatenation over `i = 0..τ` of
`decode_challenge(chal, i)` is exactly the first λ bits of `chal`, each bit
expanded to one byte in little-endian bit order: the slices are contiguous,
non-overlapping, start at offset 0 and cover bit positions `0..λ-1`. -/
theorem decode_challenge_concat :
    ∀ p ∈ tauSchedules, ∀ chal : List Nat, p.2 / 8 ≤ chal.length →
      (List.range p.1.tau).flatMap (p.1.decode_challenge chal) =
        (List.range p.2).map (chalBit chal) := by
  intro p hp chal _hlen
  simp only [tauSchedules, List.mem_cons, List.not_mem_nil, or_false] at hp
  rcases hp with rfl | rfl | rfl | rfl | rfl | rfl <;>
    exact concat_decode_aux _ _ chal (by decide) (by decide) (by decide)

/-- Witness for C3 at the `Tau128Fast` schedule and an all-ones challenge. -/
theorem decode_challenge_concat_witness :
    (List.range Tau128Fast.tau).flatMap (Tau128Fast.decode_challenge (List.replicate 16 255)) =
      (List.range 128).map (chalBit (List.replicate 16 255)) :=
  decode_challenge_concat (Tau128Fast, 128) (by decide) (List.replicate 16 255) (by decide)

/-- C4: for every schedule and `i < τ`, the three operations agree pointwise:
`convert_index_and_size i = (convert_index i, width)` with `width = k0` for
`i < τ0` and `k1` otherwise, `decode_challenge chal i` extracts exactly the
slice starting at bit offset `convert_index i` of that width, and its length
is that width. -/
theorem convert_index_agreement :
    ∀ p ∈ tauSchedules, ∀ (chal : List Nat) (i : Nat), i < p.1.tau →
      p.1.convert_index_and_size i =
          (p.1.convert_index i, if i < p.1.tau0 then p.1.k0 else p.1.k1)
      ∧ p.1.decode_challenge chal i =
          (List.range' (p.1.convert_index i) ((p.1.convert_index_and_size i).2)).map
            (chalBit chal)
      ∧ (p.1.decode_challenge chal i).length = (p.1.convert_index_and_size i).2 := by
  intro p hp chal i _hi
  obtain ⟨hk0, hk1⟩ := tauSchedule_k_pos p hp
  have hdec := decode_challenge_eq_range' p.1 chal i hk0 hk1
  refine ⟨?_, hdec, ?_⟩
  · unfold TauParams.convert_index_and_size TauParams.convert_index
    by_cases h : i < p.1.tau0 <;> simp [h]
  · rw [hdec, List.length_map, List.length_range']

/-- Witness for C4 at the `Tau256Small` schedule, repetition 20 (in the `k1`
region), all-zero challenge. -/
theorem convert_index_agreement_witness :
    Tau256Small.convert_index_and_size 20 =
        (Tau256Small.convert_index 20,
          if 20 < Tau256Small.tau0 then Tau256Small.k0 else Tau256Small.k1)
      ∧ Tau256Small.decode_challenge (List.replicate 32 0) 20 =
          (List.range' (Tau256Small.convert_index 20)
            ((Tau256Small.convert_index_and_size 20).2)).map
              (chalBit (List.replicate 32 0))
      ∧ (Tau256Small.decode_challenge (List.replicate 32 0) 20).length =
          (Tau256Small.convert_index_and_size 20).2 :=
  convert_index_agreement (Tau256Small, 256) (by decide) (List.replicate 32 0) 20 (by decide)

/-- C9: for every OWF parameter set, `SK = InputSize + LAMBDABYTES` and
`PK = 2·InputSize`; in the concrete 128-bit standard configuration both `PK`
and `SK` are 32 bytes. -/
theorem pk_sk_size :
    (∀ O ∈ owfParamSets, O.sk = O.inputSize + O.lambdaBytes ∧ O.pk = 2 * O.inputSize)
    ∧ OWF128.pk = 32 ∧ OWF128.sk = 32 := by
  decide

/-- Witness for C9 at the `OWF192EM` parameter set. -/
theorem pk_sk_size_witness :
    OWF192EM.sk = OWF192EM.inputSize + OWF192EM.lambdaBytes
    ∧ OWF192EM.pk = 2 * OWF192EM.inputSize :=
  pk_sk_size.1 OWF192EM (by decide)

/-- Helper: what a successful keygen loop iteration returns: the key is the
tail of the sampled buffer, the circuit input its head, the public output is
the OWF evaluation, and witness extension succeeded on the split. -/
theorem keygenAttempt_some_spec (O : OWFInstance) (buf : List Nat) (sk' : SKey)
    (h : keygenAttempt O buf = some sk') :
    sk'.owf_key = buf.drop O.inputSize
    ∧ sk'.pk.owf_input = buf.take O.inputSize
    ∧ sk'.pk.owf_output =
        O.evaluate_owf (buf.drop O.inputSize) (buf.take O.inputSize)
    ∧ (O.extendwitness (buf.drop O.inputSize) (buf.take O.inputSize)).isSome = true := by
  simp only [keygenAttempt] at h
  cases hext : O.extendwitness (buf.drop O.inputSize) (buf.take O.inputSize) with
  | none => rw [hext] at h; simp at h
  | some w =>
    rw [hext] at h
    simp only [Option.isNone_some, Bool.false_eq_true, if_false, Option.some.injEq] at h
    subst h
    exact ⟨rfl, rfl, rfl, rfl⟩

/-- Helper: a failing keygen loop iteration is exactly a witness-extension
failure on the split buffer. -/
theorem keygenAttempt_none_spec (O : OWFInstance) (buf : List Nat)
    (h : keygenAttempt O buf = none) :
    O.extendwitness (buf.drop O.inputSize) (buf.take O.inputSize) = none := by
  simp only [keygenAttempt] at h
  cases hext : O.extendwitness (buf.drop O.inputSize) (buf.take O.inputSize) with
  | none => rfl
  | some w => rw [hext] at h; simp at h

/-- Helper: the key returned by `keygen_with_rng` is the one built by the
loop iteration at the first succeeding sample. -/
theorem keygen_with_rng_eq (O : OWFInstance) (rng : Nat → List Nat)
    (h : keygenSucceeds O rng) :
    keygenAttempt O (rng (Nat.find h)) = some (keygen_with_rng O rng h) :=
  (Option.some_get (Nat.find_spec h)).symm

/-- C5: every secret key returned by `keygen_with_rng` satisfies the
postcondition that witness extension on `(owf_key, pk.owf_input)` succeeds,
and its public output is derived deterministically as
`evaluate_owf(owf_key, pk.owf_input)`.  Totality of `keygen_with_rng` under
the hypothesis `keygenSucceeds` is the claim that key generation terminates
whenever the random source eventually yields a sample whose witness
extension succeeds. -/
theorem keygen_postcondition (O : OWFInstance) (rng : Nat → List Nat)
    (h : keygenSucceeds O rng) :
    (O.extendwitness (keygen_with_rng O rng h).owf_key
        (keygen_with_rng O rng h).pk.owf_input).isSome = true
    ∧ (keygen_with_rng O rng h).pk.owf_output =
        O.evaluate_owf (keygen_with_rng O rng h).owf_key
          (keygen_with_rng O rng h).pk.owf_input := by
  obtain ⟨hk, hin, hout, hsome⟩ :=
    keygenAttempt_some_spec O (rng (Nat.find h)) _ (keygen_with_rng_eq O rng h)
  rw [hk, hin, hout]
  exact ⟨hsome, rfl⟩

/-- Witness for C5 at the degenerate test fixture. -/
theorem keygen_postcondition_witness :
    (owfTest.extendwitness (keygen_with_rng owfTest rngTest keygenSucceedsTest).owf_key
        (keygen_with_rng owfTest rngTest keygenSucceedsTest).pk.owf_input).isSome = true
    ∧ (keygen_with_rng owfTest rngTest keygenSucceedsTest).pk.owf_output =
        owfTest.evaluate_owf (keygen_with_rng owfTest rngTest keygenSucceedsTest).owf_key
          (keygen_with_rng owfTest rngTest keygenSucceedsTest).pk.owf_input :=
  keygen_postcondition owfTest rngTest keygenSucceedsTest

/-- C6: in each iteration of the keygen loop exactly one whole secret-key
buffer is drawn from the random source, split into the circuit input (first
`InputSize` bytes) and the cipher key (remaining `λ/8` bytes); every sample
whose witness extension fails is discarded and resampled, never surfaced as
an error, and the returned key is built from the first succeeding draw. -/
theorem keygen_loop_structure (O : OWFInstance) (rng : Nat → List Nat)
    (h : keygenSucceeds O rng)
    (hlen : ∀ n, (rng n).length = O.inputSize + O.lambdaBytes) :
    (∀ m, m < Nat.find h →
        O.extendwitness ((rng m).drop O.inputSize) ((rng m).take O.inputSize) = none)
    ∧ (keygen_with_rng O rng h).pk.owf_input = (rng (Nat.find h)).take O.inputSize
    ∧ (keygen_with_rng O rng h).owf_key = (rng (Nat.find h)).drop O.inputSize
    ∧ (keygen_with_rng O rng h).pk.owf_input.length = O.inputSize
    ∧ (keygen_with_rng O rng h).owf_key.length = O.lambdaBytes
    ∧ (O.extendwitness ((rng (Nat.find h)).drop O.inputSize)
        ((rng (Nat.find h)).take O.inputSize)).isSome = true := by
  obtain ⟨hk, hin, _hout, hsome⟩ :=
    keygenAttempt_some_spec O (rng (Nat.find h)) _ (keygen_with_rng_eq O rng h)
  refine ⟨?_, hin, hk, ?_, ?_, hsome⟩
  · intro m hm
    have hmin := Nat.find_min h hm
    rw [Option.not_isSome_iff_eq_none] at hmin
    exact keygenAttempt_none_spec O (rng m) hmin
  · rw [hin, List.length_take, hlen (Nat.find h)]
    omega
  · rw [hk, List.length_drop, hlen (Nat.find h)]
    omega

/-- Witness for C6 at the degenerate test fixture. -/
theorem keygen_loop_structure_witness :
    (∀ m, m < Nat.find keygenSucceedsTest →
        owfTest.extendwitness ((rngTest m).drop owfTest.inputSize)
          ((rngTest m).take owfTest.inputSize) = none)
    ∧ (keygen_with_rng owfTest rngTest keygenSucceedsTest).pk.owf_input =
        (rngTest (Nat.find keygenSucceedsTest)).take owfTest.inputSize
    ∧ (keygen_with_rng owfTest rngTest keygenSucceedsTest).owf_key =
        (rngTest (Nat.find keygenSucceedsTest)).drop owfTest.inputSize
    ∧ (keygen_with_rng owfTest rngTest keygenSucceedsTest).pk.owf_input.length =
        owfTest.inputSize
    ∧ (keygen_with_rng owfTest rngTest keygenSucceedsTest).owf_key.length =
        owfTest.lambdaBytes
    ∧ (owfTest.extendwitness
        ((rngTest (Nat.find keygenSucceedsTest)).drop owfTest.inputSize)
        ((rngTest (Nat.find keygenSucceedsTest)).take owfTest.inputSize)).isSome = true :=
  keygen_loop_structure owfTest rngTest keygenSucceedsTest (fun _ => rfl)

/-- C10: for every secret key whose witness extension succeeds with value
`w` — in particular every key produced by `keygen_with_rng` — the `witness`
accessor returns exactly `w`: the error branch of its `unwrap` (modelled by
the `getD` default) is unreachable under this precondition. -/
theorem witness_unwrap_safe (O : OWFInstance) (sk : SKey) (w : List Nat)
    (h : O.extendwitness sk.owf_key sk.pk.owf_input = some w) :
    O.witness sk = w
    ∧ (O.extendwitness sk.owf_key sk.pk.owf_input).isSome = true := by
  unfold OWFInstance.witness
  rw [h]
  exact ⟨rfl, rfl⟩

/-- Witness for C10 at the degenerate test fixture. -/
theorem witness_unwrap_safe_witness :
    owfTest.witness ⟨[7], ⟨[9], [7]⟩⟩ = []
    ∧ (owfTest.extendwitness (SKey.owf_key ⟨[7], ⟨[9], [7]⟩⟩)
        (PKey.owf_input ⟨[9], [7]⟩)).isSome = true :=
  witness_unwrap_safe owfTest ⟨[7], ⟨[9], [7]⟩⟩ [] rfl

/-- Helper: the XOR-into loop preserves the output buffer length. -/
theorem xorFold_length (key out : List Nat) (n : Nat) :
    ((List.range n).foldl (fun o idx => xorKeyStep key o idx) out).length = out.length := by
  induction n with
  | zero => rfl
  | succ n ih =>
    rw [List.range_succ, List.foldl_append]
    simp only [List.foldl_cons, List.foldl_nil, xorKeyStep, List.length_set]
    exact ih

/-- Helper: pointwise effect of the XOR-into loop: positions below `n` are
XORed with the matching key byte, the rest are untouched. -/
theorem xorFold_getElem (key out : List Nat) (n i : Nat) :
    ((List.range n).foldl (fun o idx => xorKeyStep key o idx) out)[i]? =
      if i < n then (out[i]?).map (fun a => a ^^^ key.getD i 0) else out[i]? := by
  induction n with
  | zero => simp
  | succ n ih =>
    rw [List.range_succ, List.foldl_append]
    simp only [List.foldl_cons, List.foldl_nil]
    have hlen : ((List.range n).foldl (fun o idx => xorKeyStep key o idx) out).length =
        out.length := xorFold_length key out n
    generalize hF : (List.range n).foldl (fun o idx => xorKeyStep key o idx) out = F at ih hlen
    unfold xorKeyStep
    rw [List.getElem?_set]
    by_cases hin : n = i
    · subst hin
      rw [if_pos rfl, hlen, if_pos (Nat.lt_succ_self n)]
      have hFn : F.getD n 0 = (out[n]?).getD 0 := by
        rw [List.getD_eq_getElem?_getD, ih, if_neg (Nat.lt_irrefl n)]
      by_cases hl : n < out.length
      · rw [if_pos hl, hFn, List.getElem?_eq_getElem hl]
        rfl
      · rw [if_neg hl, List.getElem?_eq_none (Nat.le_of_not_lt hl)]
        rfl
    · rw [if_neg hin, ih]
      by_cases h2 : i < n
      · rw [if_pos h2, if_pos (by omega)]
      · rw [if_neg h2, if_neg (by omega)]

/-- Helper: with buffers of the configured size, the Even–Mansour evaluation
is the byte-wise XOR of the raw ciphertext with the key. -/
theorem emEvaluate_eq_spec (inputSize : Nat) (cipher : List Nat → List Nat → List Nat)
    (key input : List Nat)
    (hc : (cipher input key).length = inputSize) (hk : key.length = inputSize) :
    emEvaluate inputSize cipher key input = emEvaluateSpec cipher key input := by
  unfold emEvaluate emEvaluateSpec
  apply List.ext_getElem?
  intro i
  rw [xorFold_getElem, List.getElem?_zipWith']
  by_cases hi : i < inputSize
  · have h1 : i < (cipher input key).length := by omega
    have h2 : i < key.length := by omega
    rw [if_pos hi, List.getElem?_eq_getElem h1, List.getElem?_eq_getElem h2]
    simp only [Option.map_some', Option.some_bind, Option.some.injEq]
    rw [List.getD_eq_getElem?_getD, List.getElem?_eq_getElem h2]
    rfl
  · have h1 : (cipher input key).length ≤ i := by omega
    have h2 : key.length ≤ i := by omega
    rw [if_neg hi, List.getElem?_eq_none h1, List.getElem?_eq_none h2]
    rfl

/-- Helper: XORing the same buffer in twice is the identity (on buffers of
matching length). -/
theorem zipWith_xor_cancel (c k : List Nat) (h : k.length = c.length) :
    List.zipWith (fun a b => a ^^^ b) (List.zipWith (fun a b => a ^^^ b) c k) k = c := by
  induction c generalizing k with
  | nil => simp
  | cons a c ih =>
    cases k with
    | nil => simp at h
    | cons b k =>
      have hk : k.length = c.length := by simpa using h
      simp only [List.zipWith_cons_cons, Nat.xor_assoc, Nat.xor_self, Nat.xor_zero, ih k hk]

/-- C7: for every Even–Mansour instantiation (`OWF128EM`, `OWF192EM`,
`OWF256EM`, with block sizes 16, 24 and 32 bytes) and every `(key, input)`
pair of the configured sizes, `evaluate_owf(key, input)` is the block cipher
keyed by the public input, applied to the key as plaintext block, XORed with
the key; equivalently `output XOR key` recovers the raw ciphertext.  The
cipher argument convention `cipher cipherKey block` is shared with the
standard family, so the formula exhibits the swapped key/tweak roles:
the public `input` sits in the cipher-key position and the secret `key` in
the block position. -/
theorem em_evaluate_owf_correct :
    ∀ n ∈ [16, 24, 32], ∀ (cipher : List Nat → List Nat → List Nat) (key input : List Nat),
      key.length = n → (cipher input key).length = n →
      emEvaluate n cipher key input = emEvaluateSpec cipher key input
      ∧ List.zipWith (fun a b => a ^^^ b) (emEvaluate n cipher key input) key =
          cipher input key := by
  intro n _hn cipher key input hk hc
  have h1 := emEvaluate_eq_spec n cipher key input hc hk
  refine ⟨h1, ?_⟩
  rw [h1]
  unfold emEvaluateSpec
  exact zipWith_xor_cancel _ _ (by omega)

/-- Witness for C7 at block size 16, a constant cipher and concrete buffers. -/
theorem em_evaluate_owf_correct_witness :
    emEvaluate 16 (fun _ _ => List.replicate 16 1) (List.replicate 16 7) (List.replicate 16 9) =
        emEvaluateSpec (fun _ _ => List.replicate 16 1) (List.replicate 16 7)
          (List.replicate 16 9)
    ∧ List.zipWith (fun a b => a ^^^ b)
        (emEvaluate 16 (fun _ _ => List.replicate 16 1) (List.replicate 16 7)
          (List.replicate 16 9))
        (List.replicate 16 7) =
      (fun _ _ => List.replicate 16 1) (List.replicate 16 9) (List.replicate 16 7) :=
  em_evaluate_owf_correct 16 (by decide) (fun _ _ => List.replicate 16 1)
    (List.replicate 16 7) (List.replicate 16 9) (by decide) (by decide)

/-- C8: the standard-cipher family is a direct block-cipher encryption with
the fixed round counts `R = 10/12/14` at the 128/192/256-bit levels; at the
128-bit level the single 16-byte input block is encrypted once, while at the
192- and 256-bit levels the 32-byte input is processed as two independent
16-byte blocks under the same key: output bytes `0..16` are the encryption
of input bytes `0..16` and output bytes `16..32` the encryption of input
bytes `16..32`. -/
theorem aes_evaluate_owf_blocks :
    (OWF128.r = 10 ∧ OWF192.r = 12 ∧ OWF256.r = 14)
    ∧ (∀ (cipher : List Nat → List Nat → List Nat) (key input : List Nat),
        aesSingleBlockEvaluate cipher key input = cipher key input)
    ∧ (∀ (cipher : List Nat → List Nat → List Nat) (key input : List Nat),
        (∀ b : List Nat, (cipher key b).length = 16) →
        (aesTwoBlockEvaluate cipher key input).take 16 = cipher key (input.take 16)
        ∧ (aesTwoBlockEvaluate cipher key input).drop 16 = cipher key (input.drop 16)) := by
  refine ⟨⟨rfl, rfl, rfl⟩, fun _ _ _ => rfl, ?_⟩
  intro cipher key input hlen
  unfold aesTwoBlockEvaluate
  constructor
  · exact List.take_left' (hlen (input.take 16))
  · exact List.drop_left' (hlen (input.take 16))

/-- Witness for C8: the two-block split at a constant cipher and a concrete
32-byte input. -/
theorem aes_evaluate_owf_blocks_witness :
    (aesTwoBlockEvaluate (fun _ _ => List.replicate 16 3) (List.replicate 24 1)
        (List.replicate 32 2)).take 16 =
      (fun _ _ => List.replicate 16 3) (List.replicate 24 1) ((List.replicate 32 2).take 16) :=
  (aes_evaluate_owf_blocks.2.2 (fun _ _ => List.replicate 16 3) (List.replicate 24 1)
    (List.replicate 32 2) (fun _ => rfl)).1
